import Mathlib

set_option autoImplicit false

/-!
Verification of the configuration-resolution procedure of the python
CLI template (src/{project}/config.py, models.py, core.py).

The embedding is shallow: parsed TOML documents and Python dict values
become the inductive type `Value`; Python dicts become association
lists with first-match lookup and replace-or-append update, which is
exactly the observable behaviour of `dict.__getitem__` / `__setitem__`
on the insertion-ordered dicts produced by `tomllib`; the filesystem
and the process environment are function-valued parameters; a raised
Python exception is `Except.error`.

In addition to the value-level translation of `merge_dicts`, an
object-level translation (`merge_dicts_heap`) runs the same code over
an explicit heap of dict objects, so that the absence of mutation of
the two argument dicts is expressible.
-/

namespace Proj

/-- A Python value as it can occur in a parsed TOML document or in the
configuration pipeline: integers, strings, booleans, lists and nested
string-keyed mappings. -/
inductive Value where
  | int : Int → Value
  | str : String → Value
  | bool : Bool → Value
  | list : List Value → Value
  | dict : List (String × Value) → Value
deriving Repr

/-- A Python dict with string keys, as an insertion-ordered association
list (the representation `tomllib` and `config.py` manipulate). -/
abbrev Dict := List (String × Value)

/-- `d[key]` as a total lookup: the value at the first matching key. -/
def alookup {α : Type} : List (String × α) → String → Option α
  | [], _ => none
  | (k, v) :: rest, key => if k = key then some v else alookup rest key

/-- `d[key] = v` on a Python dict: replace the value at an existing key
in place (keeping insertion order), otherwise append the new pair. -/
def aset {α : Type} : List (String × α) → String → α → List (String × α)
  | [], key, v => [(key, v)]
  | (k, w) :: rest, key, v =>
      if k = key then (key, v) :: rest else (k, w) :: aset rest key v

/-- The keys of a dict, in insertion order. -/
def keys {α : Type} (d : List (String × α)) : List String := d.map Prod.fst

/-- Faithful translation of `merge_dicts(base, override)` from
`config.py`: the first argument is the evolving `result` (initially
`base.copy()`), the second the remaining items of `override`.  For each
override item, if the key is already present in `result` with a dict
value and the override value is also a dict, the two are merged
recursively; otherwise the override value is assigned wholesale. -/
def merge_dicts : Dict → Dict → Dict
  | result, [] => result
  | result, (key, Value.dict od) :: rest =>
      (match alookup result key with
       | some (Value.dict bd) =>
           merge_dicts (aset result key (Value.dict (merge_dicts bd od))) rest
       | _ => merge_dicts (aset result key (Value.dict od)) rest)
  | result, (key, value) :: rest => merge_dicts (aset result key value) rest
termination_by _ override => sizeOf override
decreasing_by all_goals (simp_wf <;> omega)

/-- The merge rule at one key, as the spec states it: where both sides
hold a nested mapping the result is the recursive merge, any other key
present in the override is replaced wholesale by the override's value,
and a key absent from the override keeps the base's value.  (Spec-side
definition, to be compared with `merge_dicts`.) -/
def mergeRuleAt (b o : Option Value) : Option Value :=
  match o, b with
  | some (Value.dict od), some (Value.dict bd) => some (Value.dict (merge_dicts bd od))
  | some v, _ => some v
  | none, _ => b

/-- An absolute filesystem path, as its list of name components. -/
abbrev Path := List String

/-- The filesystem seen by `config.py`: a path maps to the parsed TOML
document of the file stored there, or to `none` when nothing exists at
that path.  Entries that are not TOML files (directories such as
`.git`, marker files) may map to an arbitrary document; only their
existence is ever consulted. -/
abbrev FS := Path → Option Dict

/-- `path.exists()`. -/
def pathExists (fs : FS) (p : Path) : Bool := (fs p).isSome

/-- `pathlib.Path.parents` of an absolute path: each proper ancestor,
nearest first, ending with the filesystem root `[]`. -/
def parents (p : Path) : List Path :=
  (List.range p.length).map (fun i => p.take (p.length - 1 - i))

/-- The loop condition of `find_project_root`:
`(parent / "pyproject.toml").exists() or (parent / ".git").exists()`. -/
def hasMarker (fs : FS) (dir : Path) : Bool :=
  pathExists fs (dir ++ ["pyproject.toml"]) || pathExists fs (dir ++ [".git"])

/-- The `for parent in [current, *current.parents]` loop of
`find_project_root`, returning the first candidate with a marker. -/
def findLoop (fs : FS) : List Path → Option Path
  | [] => none
  | p :: rest => if hasMarker fs p then some p else findLoop fs rest

/-- `find_project_root()` from config.py: walk upward from the current
working directory; fall back to the current directory. -/
def find_project_root (fs : FS) (cwd : Path) : Path :=
  match findLoop fs (cwd :: parents cwd) with
  | some p => p
  | none => cwd

/-- `get_config_dir()` from config.py. -/
def get_config_dir (fs : FS) (cwd : Path) : Path :=
  find_project_root fs cwd ++ ["config"]

/-- `load_toml(path)` from config.py: an absent file yields `{}`,
otherwise the parsed document is returned. -/
def load_toml (fs : FS) (path : Path) : Dict :=
  match fs path with
  | none => []
  | some d => d

/-- The process environment. -/
abbrev Env := String → Option String

/-- `str.lower()`, over the string's characters (ASCII model). -/
def pyLower (s : String) : String := String.mk (s.data.map Char.toLower)

/-- The whitespace stripping `int()` performs on its argument (ASCII
model of `str.strip()`). -/
def stripChars (l : List Char) : List Char :=
  ((l.dropWhile Char.isWhitespace).reverse.dropWhile Char.isWhitespace).reverse

/-- Digits to their base-10 value. -/
def digitsToNat (l : List Char) : Nat :=
  l.foldl (fun acc c => acc * 10 + (c.toNat - Char.toNat '0')) 0

/-- The digit part of Python `int(s)`: a nonempty run of base-10 digits
in which single underscores may separate digits. -/
def pyIntDigits (l : List Char) : Option Nat :=
  if !l.isEmpty && (l.splitOn '_').all (fun g => !g.isEmpty && g.all Char.isDigit) then
    some (digitsToNat (l.filter Char.isDigit))
  else none

/-- Python `int(s)` in base 10 (ASCII model): surrounding whitespace is
stripped, an optional sign precedes the digits, and any other string
raises `ValueError`, modelled as `none`. -/
def pyInt (s : String) : Option Int :=
  match stripChars s.data with
  | '+' :: cs => (pyIntDigits cs).map (fun n => (n : Int))
  | '-' :: cs => (pyIntDigits cs).map (fun n => -(n : Int))
  | cs => (pyIntDigits cs).map (fun n => (n : Int))

/-- A Python exception escaping `load_config`. -/
inductive ConfigError where
  /-- `ValueError` raised by `int()` on a malformed environment value. -/
  | badInt : String → ConfigError
  /-- `TypeError` raised when the extracted `general` section is not a
  mapping and is subsequently indexed or splatted. -/
  | notAMapping : ConfigError
  /-- pydantic `ValidationError`, carrying the offending field. -/
  | validation : String → ConfigError
deriving Repr, DecidableEq

/-- `merged.get("general", {})` followed by the uses `load_config`
makes of it: a missing section is `{}`; a section that is present but
is not a mapping makes the subsequent item assignment / `Config(**...)`
call raise `TypeError`. -/
def extract_general (merged : Dict) : Except ConfigError Dict :=
  match alookup merged "general" with
  | none => Except.ok []
  | some (Value.dict d) => Except.ok d
  | some _ => Except.error ConfigError.notAMapping

/-- The environment-override loop of `load_config`: for each key in
`["verbose", "timeout"]`, when `"{PROJECT}_" + key.upper()` is set in
the environment, coerce the string and assign it; `verbose` compares
the lower-cased string against `("1", "true", "yes")`, and `timeout`
calls `int`, whose `ValueError` aborts the resolution. -/
def apply_env (env : Env) (d : Dict) : Except ConfigError Dict :=
  let d1 :=
    match env "{PROJECT}_VERBOSE" with
    | some s => aset d "verbose" (Value.bool (["1", "true", "yes"].contains (pyLower s)))
    | none => d
  match env "{PROJECT}_TIMEOUT" with
  | none => Except.ok d1
  | some s =>
      match pyInt s with
      | some n => Except.ok (aset d1 "timeout" (Value.int n))
      | none => Except.error (ConfigError.badInt s)

/-- The CLI-override loop of `load_config`: each key whose value is not
`None` is assigned; a `None` value is skipped. -/
def apply_cli (cli : List (String × Option Value)) (d : Dict) : Dict :=
  cli.foldl
    (fun acc kv =>
      match kv.2 with
      | some v => aset acc kv.1 v
      | none => acc) d

/-- pydantic (lax mode) validation of a value supplied for a `bool`
field: booleans pass through, the integers 0 and 1 are coerced, a
string whose lower-casing is one of the recognized boolean literals is
coerced, and everything else is a validation error (`none`). -/
def validateBool : Value → Option Bool
  | Value.bool b => some b
  | Value.int 0 => some false
  | Value.int 1 => some true
  | Value.str s =>
      if ["true", "t", "yes", "y", "on", "1"].contains (pyLower s) then some true
      else if ["false", "f", "no", "n", "off", "0"].contains (pyLower s) then some false
      else none
  | _ => none

/-- pydantic (lax mode) validation of a value supplied for an `int`
field: integers pass through, a numeric string is parsed, booleans and
everything else are rejected. -/
def validateInt : Value → Option Int
  | Value.int n => some n
  | Value.str s => pyInt s
  | _ => none

/-- pydantic (lax mode) validation of a value supplied for a
`list[str]` field. -/
def validateTags : Value → Option (List String)
  | Value.list xs =>
      xs.mapM (fun v =>
        match v with
        | Value.str s => some s
        | _ => none)
  | _ => none

/-- The `Config` model from models.py. -/
structure Config where
  verbose : Bool := false
  timeout : Int := 30
  tags : List String := []
deriving Repr, DecidableEq

/-- `Config(**config_data)`: pydantic `BaseModel` construction.  Keys
other than the declared fields are ignored (pydantic's default
`extra="ignore"`), missing fields take the declared defaults, and each
supplied field is validated with the lax coercions above; a failure is
a `ValidationError` naming the field. -/
def mkConfig (d : Dict) : Except ConfigError Config :=
  match (match alookup d "verbose" with
         | none => some false
         | some v => validateBool v) with
  | none => Except.error (ConfigError.validation "verbose")
  | some vb =>
    match (match alookup d "timeout" with
           | none => some (30 : Int)
           | some v => validateInt v) with
    | none => Except.error (ConfigError.validation "timeout")
    | some tm =>
      match (match alookup d "tags" with
             | none => some ([] : List String)
             | some v => validateTags v) with
      | none => Except.error (ConfigError.validation "tags")
      | some tg => Except.ok { verbose := vb, timeout := tm, tags := tg }

/-- `load_config(**cli_overrides)` from config.py, over an explicit
filesystem, environment, and current working directory. -/
def load_config (fs : FS) (env : Env) (cli : List (String × Option Value)) (cwd : Path) :
    Except ConfigError Config :=
  let dir := get_config_dir fs cwd
  let defaults := load_toml fs (dir ++ ["default.toml"])
  let localDoc := load_toml fs (dir ++ ["local.toml"])
  let merged := merge_dicts defaults localDoc
  match extract_general merged with
  | Except.error e => Except.error e
  | Except.ok configData =>
      match apply_env env configData with
      | Except.error e => Except.error e
      | Except.ok d2 => mkConfig (apply_cli cli d2)

/-- The text files seen by `core.py`. -/
abbrev TextFS := Path → Option String

/-- `FileNotFoundError` raised by `process_file`. -/
inductive ProcError where
  | fileNotFound : Path → ProcError
deriving Repr, DecidableEq

/-- The string form of a path, as in the Python f-string. -/
def renderPath (p : Path) : String := "/" ++ String.intercalate "/" p

/-- `process_file(path, config)` from core.py: the successful result is
the file's text paired with the list of lines printed to stdout. -/
def process_file (tfs : TextFS) (path : Path) (config : Config) :
    Except ProcError (String × List String) :=
  match tfs path with
  | none => Except.error (ProcError.fileNotFound path)
  | some content =>
      Except.ok (content,
        if config.verbose then
          ["Processing " ++ renderPath path ++ " (" ++ toString content.length ++ " bytes)"]
        else [])

/-- A Python runtime value, for the object-level model of
`merge_dicts`: dict objects live on a heap and are passed by
reference. -/
inductive HVal where
  | int : Int → HVal
  | str : String → HVal
  | bool : Bool → HVal
  | list : List HVal → HVal
  | ref : Nat → HVal
deriving Repr

/-- One dict object: its entries, whose values may reference further
dict objects. -/
abbrev HDict := List (String × HVal)

/-- The heap: dict objects indexed by their address. -/
abbrev Heap := List HDict

mutual
/-- Object-level translation of `merge_dicts(base, override)`, run on
the dict objects at addresses `b` and `o` of `heap`.  `result =
base.copy()` allocates a fresh dict at the end of the heap (a shallow
copy of `base`); the loop then mutates only that fresh object.  The
fuel bounds the recursion depth; `none` means the fuel ran out or an
address was dangling. -/
def merge_dicts_heap : Nat → Heap → Nat → Nat → Option (Heap × Nat)
  | 0, _, _, _ => none
  | fuel + 1, heap, b, o =>
      match heap[b]?, heap[o]? with
      | some bd, some od =>
          match merge_items_heap fuel (heap ++ [bd]) heap.length od with
          | some heapF => some (heapF, heap.length)
          | none => none
      | _, _ => none

/-- The `for key, value in override.items()` loop of `merge_dicts`,
mutating the result dict at address `r`.  A recursive merge happens
exactly when the key is present in the result with a dict (reference)
value and the override value is also a dict reference; every other item
is assigned wholesale. -/
def merge_items_heap : Nat → Heap → Nat → HDict → Option Heap
  | _, heap, _, [] => some heap
  | 0, _, _, _ :: _ => none
  | fuel + 1, heap, r, (key, value) :: rest =>
      match heap[r]? with
      | none => none
      | some rd =>
          match alookup rd key, value with
          | some (HVal.ref bref), HVal.ref oref =>
              (match merge_dicts_heap fuel heap bref oref with
               | some (heap2, m) =>
                   match heap2[r]? with
                   | none => none
                   | some rd2 =>
                       merge_items_heap fuel (heap2.set r (aset rd2 key (HVal.ref m))) r rest
               | none => none)
          | _, _ => merge_items_heap fuel (heap.set r (aset rd key value)) r rest
end

/-! ## Association-list lemmas -/

@[simp] theorem alookup_nil {α : Type} (key : String) :
    alookup ([] : List (String × α)) key = none := rfl

@[simp] theorem alookup_cons {α : Type} (k : String) (v : α) (rest : List (String × α))
    (key : String) :
    alookup ((k, v) :: rest) key = if k = key then some v else alookup rest key := rfl

@[simp] theorem alookup_aset_self {α : Type} (d : List (String × α)) (key : String) (v : α) :
    alookup (aset d key v) key = some v := by
  induction d with
  | nil => simp [aset]
  | cons p rest ih =>
      obtain ⟨k, w⟩ := p
      by_cases h : k = key <;> simp [aset, h, ih]

@[simp] theorem alookup_aset_ne {α : Type} (d : List (String × α)) (k' key : String) (v : α)
    (h : k' ≠ key) : alookup (aset d k' v) key = alookup d key := by
  induction d with
  | nil => simp [aset, h]
  | cons p rest ih =>
      obtain ⟨k, w⟩ := p
      by_cases hk : k = k'
      · subst hk; simp [aset, h, ih]
      · by_cases hk2 : k = key <;> simp [aset, hk, hk2, ih, Ne.symm h]

theorem alookup_eq_none {α : Type} (d : List (String × α)) (key : String)
    (h : key ∉ keys d) : alookup d key = none := by
  induction d with
  | nil => rfl
  | cons p rest ih =>
      obtain ⟨k, v⟩ := p
      simp only [keys, List.map_cons, List.mem_cons] at h
      push_neg at h
      simp [Ne.symm h.1, ih h.2]

/-! ## C1: the deep-merge rule -/

/-- The per-key law of `merge_dicts`, generalized over the evolving
`result` accumulator. -/
theorem merge_dicts_lookup (override : Dict) :
    ∀ (result : Dict) (key : String), (keys override).Nodup →
      alookup (merge_dicts result override) key
        = mergeRuleAt (alookup result key) (alookup override key) := by
  induction override with
  | nil =>
      intro result key _
      simp [merge_dicts, mergeRuleAt]
  | cons p rest ih =>
      obtain ⟨k, v⟩ := p
      intro result key h
      simp only [keys, List.map_cons, List.nodup_cons] at h
      obtain ⟨hk_not, hnd⟩ := h
      have hrest : (keys rest).Nodup := hnd
      have hnone : alookup rest k = none := alookup_eq_none rest k hk_not
      by_cases hkey : k = key
      · subst hkey
        cases v with
        | dict od =>
            rcases hres : alookup result k with _ | bv
            · simp [merge_dicts, hres, ih _ k hrest, hnone, mergeRuleAt]
            · cases bv <;>
                simp [merge_dicts, hres, ih _ k hrest, hnone, mergeRuleAt]
        | int n =>
            rcases hres : alookup result k with _ | bv
            · simp [merge_dicts, ih _ k hrest, hnone, mergeRuleAt, hres]
            · cases bv <;> simp [merge_dicts, ih _ k hrest, hnone, mergeRuleAt, hres]
        | str s =>
            rcases hres : alookup result k with _ | bv
            · simp [merge_dicts, ih _ k hrest, hnone, mergeRuleAt, hres]
            · cases bv <;> simp [merge_dicts, ih _ k hrest, hnone, mergeRuleAt, hres]
        | bool b =>
            rcases hres : alookup result k with _ | bv
            · simp [merge_dicts, ih _ k hrest, hnone, mergeRuleAt, hres]
            · cases bv <;> simp [merge_dicts, ih _ k hrest, hnone, mergeRuleAt, hres]
        | list l =>
            rcases hres : alookup result k with _ | bv
            · simp [merge_dicts, ih _ k hrest, hnone, mergeRuleAt, hres]
            · cases bv <;> simp [merge_dicts, ih _ k hrest, hnone, mergeRuleAt, hres]
      · cases v with
        | dict od =>
            rcases hres : alookup result k with _ | bv
            · simp [merge_dicts, hres, ih _ key hrest, hkey]
            · cases bv <;> simp [merge_dicts, hres, ih _ key hrest, hkey]
        | int n => simp [merge_dicts, ih _ key hrest, hkey]
        | str s => simp [merge_dicts, ih _ key hrest, hkey]
        | bool b => simp [merge_dicts, ih _ key hrest, hkey]
        | list l => simp [merge_dicts, ih _ key hrest, hkey]

/-- C1.  The deep merge of a base document and an override document
satisfies, at every key: where both sides hold a nested mapping the
result is the recursive merge of the two nested mappings, any other key
present in the override is replaced wholesale by the override's value,
and keys absent from the override keep the base's value (this is
`mergeRuleAt`).  In particular `{a: {x:1, y:2}}` merged with
`{a: {y:3}}` is `{a: {x:1, y:3}}`, and `{a: 1}` merged with
`{a: [1,2]}` is `{a: [1,2]}`. -/
theorem merge_dicts_spec :
    (∀ (base override : Dict) (key : String), (keys override).Nodup →
      alookup (merge_dicts base override) key
        = mergeRuleAt (alookup base key) (alookup override key))
    ∧ merge_dicts [("a", Value.dict [("x", Value.int 1), ("y", Value.int 2)])]
        [("a", Value.dict [("y", Value.int 3)])]
      = [("a", Value.dict [("x", Value.int 1), ("y", Value.int 3)])]
    ∧ merge_dicts [("a", Value.int 1)] [("a", Value.list [Value.int 1, Value.int 2])]
      = [("a", Value.list [Value.int 1, Value.int 2])] := by
  refine ⟨fun base override key h => merge_dicts_lookup override base key h, ?_, ?_⟩
  · simp [merge_dicts, aset]
  · simp [merge_dicts, aset]

/-- Witness for C1 at a concrete input: merging
`{a: 1, b: {x: 2}}` with `{b: {y: 3}, c: 4}` and reading the keys
back through the per-key law. -/
theorem merge_dicts_spec_witness :
    alookup (merge_dicts [("a", Value.int 1), ("b", Value.dict [("x", Value.int 2)])]
        [("b", Value.dict [("y", Value.int 3)]), ("c", Value.int 4)]) "b"
      = some (Value.dict [("x", Value.int 2), ("y", Value.int 3)]) := by
  have h := merge_dicts_spec.1
    [("a", Value.int 1), ("b", Value.dict [("x", Value.int 2)])]
    [("b", Value.dict [("y", Value.int 3)]), ("c", Value.int 4)] "b"
    (by simp [keys])
  rw [h]
  simp [mergeRuleAt, merge_dicts, aset]

/-! ## C4: absent config files -/

/-- C4.  Loading a document whose file is absent yields the empty
mapping and never an error (`load_toml` is total into `Dict`), so a
resolution run with both config files missing (here, an empty
filesystem, environment and override set) succeeds. -/
theorem missing_config_ok :
    (∀ (fs : FS) (p : Path), fs p = none → load_toml fs p = [])
    ∧ (∀ (fs : FS) (cwd : Path),
        fs (get_config_dir fs cwd ++ ["default.toml"]) = none →
        fs (get_config_dir fs cwd ++ ["local.toml"]) = none →
        load_config fs (fun _ => none) [] cwd
          = Except.ok { verbose := false, timeout := 30, tags := [] }) := by
  constructor
  · intro fs p h
    simp [load_toml, h]
  · intro fs cwd h1 h2
    simp [load_config, load_toml, h1, h2, merge_dicts, extract_general, apply_env,
      apply_cli, mkConfig]

/-- Witness for C4 on the empty filesystem and the root directory. -/
theorem missing_config_ok_witness :
    load_config (fun _ => none) (fun _ => none) [] []
      = Except.ok { verbose := false, timeout := 30, tags := [] } :=
  missing_config_ok.2 (fun _ => none) [] rfl rfl

/-! ## C7: the file-processing stub -/

/-- C7.  `process_file` fails with the distinguishable
`FileNotFoundError` exactly when the path does not exist; otherwise it
returns the file's exact textual contents, and it prints the
`Processing <path> (<n> bytes)` diagnostic line exactly when `verbose`
is set. -/
theorem process_file_spec (tfs : TextFS) (path : Path) (config : Config) :
    (tfs path = none →
      process_file tfs path config = Except.error (ProcError.fileNotFound path))
    ∧ (∀ content, tfs path = some content →
        ∃ out, process_file tfs path config = Except.ok (content, out)
          ∧ (config.verbose = true →
              out = ["Processing " ++ renderPath path ++ " ("
                      ++ toString content.length ++ " bytes)"])
          ∧ (config.verbose = false → out = [])) := by
  constructor
  · intro h
    simp [process_file, h]
  · intro content h
    refine ⟨if config.verbose then
        ["Processing " ++ renderPath path ++ " (" ++ toString content.length ++ " bytes)"]
      else [], ?_, fun hv => ?_, fun hv => ?_⟩
    · simp [process_file, h]
    · simp [hv]
    · simp [hv]

/-- Witness for C7: a one-file filesystem, read back verbatim with no
diagnostic output under the default (non-verbose) settings. -/
theorem process_file_spec_witness :
    process_file (fun p => if p = ["tmp", "sample.txt"] then some "test content" else none)
      ["tmp", "sample.txt"] {} = Except.ok ("test content", []) := by
  obtain ⟨out, h1, _, h3⟩ :=
    (process_file_spec (fun p => if p = ["tmp", "sample.txt"] then some "test content" else none)
      ["tmp", "sample.txt"] {}).2 "test content" (by simp)
  rw [h1, h3 rfl]

/-! ## C8: determinism of resolution -/

/-- C8.  Resolution is deterministic: two invocations of `load_config`
on identical inputs (filesystem, environment, CLI overrides, working
directory) yield equal results. -/
theorem load_config_deterministic (fs fs' : FS) (env env' : Env)
    (cli cli' : List (String × Option Value)) (cwd cwd' : Path)
    (hfs : fs = fs') (henv : env = env') (hcli : cli = cli') (hcwd : cwd = cwd') :
    load_config fs env cli cwd = load_config fs' env' cli' cwd' := by
  subst hfs henv hcli hcwd
  rfl

/-- Witness for C8 at a concrete repeated invocation. -/
theorem load_config_deterministic_witness :
    load_config (fun _ => none) (fun _ => none) [] ["home"]
      = load_config (fun _ => none) (fun _ => none) [] ["home"] :=
  load_config_deterministic _ _ _ _ _ _ _ _ rfl rfl rfl rfl

/-! ## C2: environment-variable coercions -/

/-- C2.  `{PROJECT}_VERBOSE` sets `verbose` to the truth of "the
lower-cased value is one of 1/true/yes", and a `{PROJECT}_TIMEOUT`
value that `int` cannot parse fails the environment step with the
`ValueError`-backed `ConfigError` — and therefore fails the whole
resolution — instead of being defaulted or ignored. -/
theorem env_coercion_spec :
    (∀ (env : Env) (d d2 : Dict) (s : String),
        env "{PROJECT}_VERBOSE" = some s →
        apply_env env d = Except.ok d2 →
        alookup d2 "verbose" = some (Value.bool (["1", "true", "yes"].contains (pyLower s))))
    ∧ (∀ (env : Env) (d : Dict) (s : String),
        env "{PROJECT}_TIMEOUT" = some s → pyInt s = none →
        apply_env env d = Except.error (ConfigError.badInt s))
    ∧ (∀ (fs : FS) (env : Env) (cli : List (String × Option Value)) (cwd : Path) (s : String),
        env "{PROJECT}_TIMEOUT" = some s → pyInt s = none →
        ∃ e, load_config fs env cli cwd = Except.error e) := by
  have h2 : ∀ (env : Env) (d : Dict) (s : String),
      env "{PROJECT}_TIMEOUT" = some s → pyInt s = none →
      apply_env env d = Except.error (ConfigError.badInt s) := by
    intro env d s ht hp
    simp [apply_env, ht, hp]
  refine ⟨?_, h2, ?_⟩
  · intro env d d2 s hv happ
    simp only [apply_env, hv] at happ
    rcases ht : env "{PROJECT}_TIMEOUT" with _ | s2 <;> simp only [ht] at happ
    · simp only [Except.ok.injEq] at happ
      subst happ
      simp
    · rcases hp : pyInt s2 with _ | n <;> simp only [hp] at happ
      · cases happ
      · simp only [Except.ok.injEq] at happ
        subst happ
        simp
  · intro fs env cli cwd s ht hp
    simp only [load_config]
    split
    · exact ⟨_, rfl⟩
    · rw [h2 env _ s ht hp]
      exact ⟨_, rfl⟩

/-- Witness for C2: `{PROJECT}_VERBOSE=YES` yields `verbose == true`
through the environment step, and `{PROJECT}_TIMEOUT=notanumber` fails
the whole resolution. -/
theorem env_coercion_spec_witness :
    alookup [("verbose", Value.bool true)] "verbose"
        = some (Value.bool (["1", "true", "yes"].contains (pyLower "YES")))
    ∧ ∃ e,
        load_config (fun _ => none)
          (fun k => if k = "{PROJECT}_TIMEOUT" then some "notanumber" else none) [] []
          = Except.error e := by
  constructor
  · exact env_coercion_spec.1
      (fun k => if k = "{PROJECT}_VERBOSE" then some "YES" else none)
      [] [("verbose", Value.bool true)] "YES" (by simp)
      (by simp [apply_env, pyLower]; rfl)
  · exact env_coercion_spec.2.2 (fun _ => none)
      (fun k => if k = "{PROJECT}_TIMEOUT" then some "notanumber" else none) [] []
      "notanumber" (by simp) (by decide)

/-! ## C5: null CLI overrides -/

@[simp] theorem apply_cli_nil (d : Dict) : apply_cli [] d = d := rfl

theorem apply_cli_cons_none (k : String) (ys : List (String × Option Value)) (d : Dict) :
    apply_cli ((k, none) :: ys) d = apply_cli ys d := rfl

theorem apply_cli_cons_some (k : String) (v : Value) (ys : List (String × Option Value))
    (d : Dict) : apply_cli ((k, some v) :: ys) d = apply_cli ys (aset d k v) := rfl

theorem apply_cli_append (xs ys : List (String × Option Value)) (d : Dict) :
    apply_cli (xs ++ ys) d = apply_cli ys (apply_cli xs d) :=
  List.foldl_append _ _ _ _

/-- Dropping a null-valued CLI entry does not change the override
step. -/
theorem apply_cli_drop_none (xs ys : List (String × Option Value)) (k : String) (d : Dict) :
    apply_cli (xs ++ (k, none) :: ys) d = apply_cli (xs ++ ys) d := by
  rw [apply_cli_append, apply_cli_cons_none, ← apply_cli_append]

/-- Keys never set by the CLI loop keep their previous value. -/
theorem apply_cli_untouched (ys : List (String × Option Value)) :
    ∀ (d : Dict) (k : String), (∀ w, (k, some w) ∉ ys) →
      alookup (apply_cli ys d) k = alookup d k := by
  induction ys with
  | nil => intro d k _; rfl
  | cons p rest ih =>
      intro d k h
      obtain ⟨k', ov⟩ := p
      cases ov with
      | none =>
          rw [apply_cli_cons_none]
          exact ih d k (fun w hw => h w (List.mem_cons_of_mem _ hw))
      | some w =>
          rw [apply_cli_cons_some]
          have hk : k' ≠ k := by
            intro hkk
            exact h w (by rw [hkk]; exact List.mem_cons_self _ _)
          rw [ih (aset d k' w) k (fun w' hw' => h w' (List.mem_cons_of_mem _ hw')),
            alookup_aset_ne d k' k w hk]

/-- C5.  A CLI override whose value is null leaves resolution exactly
as if the key had been omitted; a non-null override sets its key
unconditionally (no later entry resets it). -/
theorem cli_override_spec :
    (∀ (fs : FS) (env : Env) (cwd : Path) (xs ys : List (String × Option Value)) (k : String),
        load_config fs env (xs ++ (k, none) :: ys) cwd = load_config fs env (xs ++ ys) cwd)
    ∧ (∀ (d : Dict) (xs ys : List (String × Option Value)) (k : String) (v : Value),
        (∀ w, (k, some w) ∉ ys) →
        alookup (apply_cli (xs ++ (k, some v) :: ys) d) k = some v) := by
  constructor
  · intro fs env cwd xs ys k
    simp only [load_config, apply_cli_drop_none]
  · intro d xs ys k v h
    rw [apply_cli_append, apply_cli_cons_some, apply_cli_untouched ys _ k h,
      alookup_aset_self]

/-- Witness for C5: overriding `verbose` with a non-null value sets it,
and a null `timeout` entry yields the same resolution as omitting it. -/
theorem cli_override_spec_witness :
    alookup (apply_cli [("verbose", some (Value.bool true))] []) "verbose"
        = some (Value.bool true)
    ∧ load_config (fun _ => none) (fun _ => none) [("timeout", none)] []
        = load_config (fun _ => none) (fun _ => none) [] [] := by
  constructor
  · exact cli_override_spec.2 [] [] [] "verbose" (Value.bool true) (by simp)
  · exact cli_override_spec.1 (fun _ => none) (fun _ => none) [] [] [] "timeout"

/-! ## C6: Settings are fully populated -/

/-- C6.  Every `Config` the construction step produces is fully
populated (the structure is total in all three fields): a field whose
key is missing from the flat mapping takes its built-in default
(`verbose = false`, `timeout = 30`, `tags = []`), and construction
depends only on the three declared keys, so unknown keys are ignored
rather than erroring. -/
theorem mkConfig_defaults_spec :
    (∀ (d : Dict) (c : Config), mkConfig d = Except.ok c →
        (alookup d "verbose" = none → c.verbose = false)
        ∧ (alookup d "timeout" = none → c.timeout = 30)
        ∧ (alookup d "tags" = none → c.tags = []))
    ∧ (∀ d d' : Dict,
        alookup d "verbose" = alookup d' "verbose" →
        alookup d "timeout" = alookup d' "timeout" →
        alookup d "tags" = alookup d' "tags" →
        mkConfig d = mkConfig d') := by
  constructor
  · intro d c h
    refine ⟨fun hv => ?_, fun ht => ?_, fun hg => ?_⟩
    · simp only [mkConfig, hv] at h
      split at h
      · cases h
      · split at h
        · cases h
        · simp only [Except.ok.injEq] at h
          subst h
          rfl
    · simp only [mkConfig, ht] at h
      split at h
      · cases h
      · split at h
        · cases h
        · simp only [Except.ok.injEq] at h
          subst h
          rfl
    · simp only [mkConfig, hg] at h
      split at h
      · cases h
      · split at h
        · cases h
        · simp only [Except.ok.injEq] at h
          subst h
          rfl
  · intro d d' h1 h2 h3
    simp only [mkConfig, h1, h2, h3]

/-- Witness for C6: a mapping holding only an unknown key produces the
fully-defaulted settings, and changing the unknown key's value cannot
change the result. -/
theorem mkConfig_defaults_spec_witness :
    (({ verbose := false, timeout := 30, tags := [] } : Config).verbose = false)
    ∧ mkConfig [("unknown", Value.int 5)] = mkConfig [("unknown", Value.str "ignored")] := by
  constructor
  · exact (mkConfig_defaults_spec.1 [("unknown", Value.int 5)]
      { verbose := false, timeout := 30, tags := [] } rfl).1 rfl
  · exact mkConfig_defaults_spec.2 [("unknown", Value.int 5)]
      [("unknown", Value.str "ignored")] rfl rfl rfl

/-! ## C3: type validation at the construction step -/

/-- Counterexample to C3 as stated: the string `"yes"` is a non-boolean
value for `verbose`, yet pydantic's lax validation coerces it to
`True` instead of failing with a `ConfigError`. -/
theorem mkConfig_coerces_nonbool :
    mkConfig [("verbose", Value.str "yes")]
      = Except.ok { verbose := true, timeout := 30, tags := [] }
    ∧ (∀ b, Value.str "yes" ≠ Value.bool b) := by
  constructor
  · rfl
  · intro b h
    cases h

/-- C3 amended: the construction step validates the fields, and a value
for `verbose` (resp. `timeout`) that pydantic's lax rules cannot coerce
to a boolean (resp. integer) fails with a `ConfigError` identifying
that field; values the lax rules do coerce — recognized boolean
strings, 0/1, numeric strings — are coerced rather than rejected. -/
theorem mkConfig_invalid_field :
    (∀ (d : Dict) (v : Value), alookup d "verbose" = some v → validateBool v = none →
        mkConfig d = Except.error (ConfigError.validation "verbose"))
    ∧ (∀ (d : Dict) (w : Value),
        (∀ v, alookup d "verbose" = some v → validateBool v ≠ none) →
        alookup d "timeout" = some w → validateInt w = none →
        mkConfig d = Except.error (ConfigError.validation "timeout")) := by
  constructor
  · intro d v hv hval
    simp [mkConfig, hv, hval]
  · intro d w hv ht hval
    rcases hvv : alookup d "verbose" with _ | v
    · simp [mkConfig, hvv, ht, hval]
    · rcases hb : validateBool v with _ | b
      · exact absurd hb (hv v hvv)
      · simp [mkConfig, hvv, hb, ht, hval]

/-- Witness for the amended C3: a list value for `verbose` is not
coercible to a boolean and fails naming the field. -/
theorem mkConfig_invalid_field_witness :
    mkConfig [("verbose", Value.list [])]
      = Except.error (ConfigError.validation "verbose") :=
  mkConfig_invalid_field.1 [("verbose", Value.list [])] (Value.list []) rfl rfl

/-! ## C9: project-root discovery -/

/-- When no candidate carries a marker, the loop finds nothing. -/
theorem findLoop_eq_none (fs : FS) (l : List Path)
    (h : ∀ d ∈ l, hasMarker fs d = false) : findLoop fs l = none := by
  induction l with
  | nil => rfl
  | cons p rest ih =>
      simp only [findLoop, h p (List.mem_cons_self _ _)]
      exact ih (fun d hd => h d (List.mem_cons_of_mem _ hd))

/-- The loop returns the first candidate carrying a marker. -/
theorem findLoop_first (fs : FS) (l : List Path) :
    ∀ (i : Nat) (r : Path), l[i]? = some r → hasMarker fs r = true →
      (∀ j < i, ∀ d, l[j]? = some d → hasMarker fs d = false) →
      findLoop fs l = some r := by
  induction l with
  | nil => intro i r hi; cases hi
  | cons p rest ih =>
      intro i r hi hr hbefore
      cases i with
      | zero =>
          simp only [List.getElem?_cons_zero, Option.some.injEq] at hi
          subst hi
          simp [findLoop, hr]
      | succ i =>
          have hp : hasMarker fs p = false :=
            hbefore 0 (Nat.succ_pos _) p (by simp)
          rw [List.getElem?_cons_succ] at hi
          simp only [findLoop, hp, Bool.false_eq_true, if_false]
          exact ih i r hi hr
            (fun j hj d hd => hbefore (j + 1) (Nat.succ_lt_succ hj) d
              (by rw [List.getElem?_cons_succ]; exact hd))

/-- C9.  Root discovery walks upward from the current working
directory: it returns the first of `cwd :: parents cwd` containing a
`pyproject.toml` or `.git` marker, and `cwd` itself when no candidate
has one; the two config documents are then addressed at
`<root>/config/default.toml` and `<root>/config/local.toml`. -/
theorem find_project_root_spec (fs : FS) (cwd : Path) :
    ((∀ d ∈ cwd :: parents cwd, hasMarker fs d = false) →
        find_project_root fs cwd = cwd)
    ∧ (∀ (i : Nat) (r : Path), (cwd :: parents cwd)[i]? = some r →
        hasMarker fs r = true →
        (∀ j < i, ∀ d, (cwd :: parents cwd)[j]? = some d → hasMarker fs d = false) →
        find_project_root fs cwd = r)
    ∧ get_config_dir fs cwd ++ ["default.toml"]
        = find_project_root fs cwd ++ ["config", "default.toml"]
    ∧ get_config_dir fs cwd ++ ["local.toml"]
        = find_project_root fs cwd ++ ["config", "local.toml"] := by
  refine ⟨?_, ?_, ?_, ?_⟩
  · intro h
    simp [find_project_root, findLoop_eq_none fs _ h]
  · intro i r hi hr hbefore
    simp [find_project_root, findLoop_first fs _ i r hi hr hbefore]
  · simp [get_config_dir]
  · simp [get_config_dir]

/-- Witness for C9: from `/home/proj/sub`, with a `pyproject.toml`
marker in `/home/proj`, discovery skips `sub` and returns
`/home/proj`. -/
theorem find_project_root_spec_witness :
    find_project_root
      (fun p => if p = ["home", "proj", "pyproject.toml"] then some [] else none)
      ["home", "proj", "sub"] = ["home", "proj"] := by
  apply (find_project_root_spec
    (fun p => if p = ["home", "proj", "pyproject.toml"] then some [] else none)
    ["home", "proj", "sub"]).2.1 1 ["home", "proj"]
  · rfl
  · rfl
  · intro j hj d hd
    have hj0 : j = 0 := by omega
    subst hj0
    simp only [List.getElem?_cons_zero, Option.some.injEq] at hd
    subst hd
    rfl

/-! ## C10: merge_dicts mutates neither argument -/

/-- Frame property of the object-level merge, by mutual induction on
the fuel: both functions only allocate fresh dict objects at the end of
the heap and write to the result object `r`; every pre-existing
address, other than `r` for the loop, is untouched. -/
theorem merge_heap_frame (fuel : Nat) :
    (∀ (heap : Heap) (b o : Nat) (heapF : Heap) (res : Nat),
        merge_dicts_heap fuel heap b o = some (heapF, res) →
        heap.length ≤ heapF.length ∧ res = heap.length
          ∧ ∀ a < heap.length, heapF[a]? = heap[a]?)
    ∧ (∀ (heap : Heap) (r : Nat) (items : HDict) (heapF : Heap),
        merge_items_heap fuel heap r items = some heapF →
        heap.length ≤ heapF.length
          ∧ ∀ a < heap.length, a ≠ r → heapF[a]? = heap[a]?) := by
  induction fuel with
  | zero =>
      constructor
      · intro heap b o heapF res h
        cases h
      · intro heap r items heapF h
        cases items with
        | nil =>
            simp only [merge_items_heap, Option.some.injEq] at h
            subst h
            exact ⟨Nat.le_refl _, fun a _ _ => rfl⟩
        | cons kv rest => cases h
  | succ fuel ih =>
      obtain ⟨ihM, ihL⟩ := ih
      constructor
      · intro heap b o heapF res h
        rcases hb : heap[b]? with _ | bd <;> simp only [merge_dicts_heap, hb] at h
        · cases h
        rcases ho : heap[o]? with _ | od <;> simp only [ho] at h
        · cases h
        rcases hloop : merge_items_heap fuel (heap ++ [bd]) heap.length od
          with _ | heapF2 <;> simp only [hloop] at h
        · cases h
        simp only [Option.some.injEq, Prod.mk.injEq] at h
        obtain ⟨rfl, rfl⟩ := h
        obtain ⟨hlen, hfr⟩ := ihL _ _ _ _ hloop
        rw [List.length_append, List.length_singleton] at hlen
        refine ⟨by omega, rfl, fun a ha => ?_⟩
        rw [hfr a (by rw [List.length_append, List.length_singleton]; omega) (by omega),
          List.getElem?_append_left ha]
      · intro heap r items heapF h
        cases items with
        | nil =>
            simp only [merge_items_heap, Option.some.injEq] at h
            subst h
            exact ⟨Nat.le_refl _, fun a _ _ => rfl⟩
        | cons kv rest =>
            obtain ⟨key, value⟩ := kv
            rcases hrd : heap[r]? with _ | rd <;> simp only [merge_items_heap, hrd] at h
            · cases h
            have W : ∀ (hv : HVal) (hF : Heap),
                merge_items_heap fuel (heap.set r (aset rd key hv)) r rest = some hF →
                List.length heap ≤ List.length hF
                  ∧ ∀ a < List.length heap, a ≠ r → hF[a]? = heap[a]? := by
              intro hv hF hrun
              obtain ⟨hlen3, hfr3⟩ := ihL _ _ _ _ hrun
              rw [List.length_set] at hlen3
              refine ⟨by omega, fun a ha har => ?_⟩
              rw [hfr3 a (by rw [List.length_set]; omega) har,
                List.getElem?_set_ne (Ne.symm har)]
            rcases hl : alookup rd key with _ | lv <;> simp only [hl] at h
            · exact W _ _ h
            cases lv with
            | ref bref =>
                cases value with
                | ref oref =>
                    rcases hmerge : merge_dicts_heap fuel heap bref oref
                      with _ | p <;> simp only [hmerge] at h
                    · cases h
                    obtain ⟨heap2, m⟩ := p
                    rcases hrd2 : heap2[r]? with _ | rd2 <;> simp only [hrd2] at h
                    · cases h
                    obtain ⟨hlen2, -, hfr2⟩ := ihM _ _ _ _ _ hmerge
                    obtain ⟨hlen3, hfr3⟩ := ihL _ _ _ _ h
                    rw [List.length_set] at hlen3
                    refine ⟨by omega, fun a ha har => ?_⟩
                    rw [hfr3 a (by rw [List.length_set]; omega) har,
                      List.getElem?_set_ne (Ne.symm har), hfr2 a ha]
                | int n => exact W _ _ h
                | str s => exact W _ _ h
                | bool bb => exact W _ _ h
                | list l => exact W _ _ h
            | int n => exact W _ _ h
            | str s => exact W _ _ h
            | bool bb => exact W _ _ h
            | list l => exact W _ _ h

/-- C10.  The object-level run of `merge_dicts` leaves every
pre-existing heap object — in particular both of its argument dicts,
and every dict nested inside them — exactly as it was: the result is a
fresh dict, not an in-place update of either input. -/
theorem merge_dicts_heap_frame (fuel : Nat) (heap : Heap) (b o : Nat)
    (heapF : Heap) (res : Nat)
    (h : merge_dicts_heap fuel heap b o = some (heapF, res)) :
    (∀ a < heap.length, heapF[a]? = heap[a]?)
    ∧ ∀ bd od, heap[b]? = some bd → heap[o]? = some od →
        heapF[b]? = some bd ∧ heapF[o]? = some od := by
  have main := ((merge_heap_frame fuel).1 heap b o heapF res h).2.2
  refine ⟨main, fun bd od hb ho => ⟨?_, ?_⟩⟩
  · obtain ⟨hlt, -⟩ := List.getElem?_eq_some.mp hb
    rw [main b hlt, hb]
  · obtain ⟨hlt, -⟩ := List.getElem?_eq_some.mp ho
    rw [main o hlt, ho]

/-- Witness for C10: merging the dict at address 0 with the dict at
address 1 allocates the merged dict at address 2 and leaves the two
inputs unchanged. -/
theorem merge_dicts_heap_frame_witness :
    ([[("x", HVal.int 1)], [("y", HVal.int 2)],
        [("x", HVal.int 1), ("y", HVal.int 2)]] : Heap)[0]? = some [("x", HVal.int 1)]
    ∧ ([[("x", HVal.int 1)], [("y", HVal.int 2)],
        [("x", HVal.int 1), ("y", HVal.int 2)]] : Heap)[1]? = some [("y", HVal.int 2)] :=
  (merge_dicts_heap_frame 3 [[("x", HVal.int 1)], [("y", HVal.int 2)]] 0 1
    [[("x", HVal.int 1)], [("y", HVal.int 2)], [("x", HVal.int 1), ("y", HVal.int 2)]] 2
    (by simp [merge_dicts_heap, merge_items_heap, aset])).2
    [("x", HVal.int 1)] [("y", HVal.int 2)] rfl rfl

end Proj
